import Mathlib

/-!
Verification development for the MNIST pointer-network notebook
(`P10_Attention.ipynb`): a shallow embedding of the synthetic selection
dataset (`MNISTAttentionDataset`), the additive attention scorer
(`AttentionModel.scoringAdditive` / `forward`) and the `evaluate` loop,
together with theorems settling the specified properties.

Modelling conventions:
* Scalars live in an arbitrary commutative ring `α` with a division
  (instantiated at `ℤ` for concrete evaluations; `ℚ` and `ℝ` are
  instances, so every theorem covers the exact real-number semantics of
  the tensor code).  `torch.tanh` is kept abstract as a parameter
  `th : α → α` since the exact hyperbolic tangent is transcendental —
  every property proved here is structural and holds for an arbitrary
  activation.
* Images are flattened vectors (`List α`); the `28 × 28 → 784` flatten
  of the notebook is the identity in this representation.
* The NumPy global random source is an explicit oracle stream
  `List Nat`; each primitive draw consumes the head of the stream.
  `np.random.randint(lo, hi)` maps the drawn value `v` to
  `lo + v % (hi - lo)` and raises `ValueError` when `hi ≤ lo`, exactly
  as NumPy does; `np.random.choice(xs)` picks index `v % xs.length`
  and raises `ValueError` on an empty list.
* Fallible operations return `Except`; `DErr.valueError` stands for
  NumPy's `ValueError`, `DErr.indexError` for an out-of-range dataset
  index, and `TErr.shapeMismatch` for a PyTorch shape error.
-/

namespace P10

/-- An image: a flattened vector of pixel values. -/
abbrev Img (α : Type) := List α

/-- Errors raised on the dataset side (NumPy exceptions). -/
inductive DErr where
  | valueError
  | indexError
deriving DecidableEq, Repr

/-- Errors raised on the model side (PyTorch shape errors). -/
inductive TErr where
  | shapeMismatch
deriving DecidableEq, Repr

instance {ε α : Type} [DecidableEq ε] [DecidableEq α] :
    DecidableEq (Except ε α) := fun a b =>
  match a, b with
  | .error e1, .error e2 =>
    if h : e1 = e2 then isTrue (congrArg Except.error h)
    else isFalse (fun hh => h (Except.error.inj hh))
  | .error _, .ok _ => isFalse (fun hh => Except.noConfusion hh)
  | .ok _, .error _ => isFalse (fun hh => Except.noConfusion hh)
  | .ok a1, .ok a2 =>
    if h : a1 = a2 then isTrue (congrArg Except.ok h)
    else isFalse (fun hh => h (Except.ok.inj hh))

/-- Consume one value from the random oracle stream. -/
def rdraw (rng : List Nat) : Nat × List Nat := (rng.headD 0, rng.tail)

/-- `np.random.randint(lo, hi)`: uniform integer in `[lo, hi)`; raises
`ValueError` when `hi ≤ lo` (NumPy: low >= high). -/
def randint (lo hi : Nat) (rng : List Nat) : Except DErr (Nat × List Nat) :=
  if hi ≤ lo then .error .valueError
  else
    let p := rdraw rng
    .ok (lo + p.1 % (hi - lo), p.2)

/-- `np.random.choice(xs)`: uniform element of `xs`; raises `ValueError`
on an empty list. -/
def rchoice {α : Type} (xs : List α) (rng : List Nat) :
    Except DErr (α × List Nat) :=
  if h : xs.length = 0 then .error .valueError
  else
    let p := rdraw rng
    .ok (xs.get ⟨p.1 % xs.length, Nat.mod_lt _ (Nat.pos_of_ne_zero h)⟩, p.2)

/-- Pixel normalisation `img / 255.0` from the notebook. -/
def normalize {α : Type} [CommRing α] [Div α] (im : Img α) : Img α :=
  im.map (fun p => p / 255)

/-- `MNISTAttentionDataset.__init__`: partition the source corpus (a list
of label/image pairs, mirroring `mnist.targets` / `mnist.data`) by label,
normalising the pixel values — `self.data[label] =
self.mnist.data[self.mnist.targets == label] / 255.0`.  The constructor
has no failure path. -/
def buildPool {α : Type} [CommRing α] [Div α]
    (corpus : List (Fin 10 × Img α)) (label : Fin 10) : List (Img α) :=
  (corpus.filter (fun p => decide (p.1 = label))).map (fun p => normalize p.2)

/-- The successor class `(c + 1) % 10`. -/
def succClass (c : Fin 10) : Fin 10 := ⟨(c.1 + 1) % 10, Nat.mod_lt _ (by omega)⟩

/-- The list `[n for n in [0,...,9] if n != (c+1)%10]` of distractor
classes. -/
def distractorList (c : Fin 10) : List (Fin 10) :=
  (List.finRange 10).filter (fun n => decide (n ≠ succClass c))

/-- The `sample` dictionary returned by `__getitem__`:
`{x: inputs, query: query, y: correct_pos}`. -/
structure Sample (α : Type) where
  x : List (Img α)
  query : Img α
  y : Nat
deriving DecidableEq

/-- One iteration of the row-filling loop of `__getitem__`: position `j`
receives an item of class `(c+1)%10` when `j == correct_pos`, and an
item of a uniformly chosen distractor class otherwise. -/
def buildRow {α : Type} (pool : Fin 10 → List (Img α)) (c : Fin 10)
    (cp j : Nat) (rng : List Nat) : Except DErr (Img α × List Nat) :=
  if j = cp then do
    let p ← randint 0 (pool (succClass c)).length rng
    pure ((pool (succClass c)).getD p.1 [], p.2)
  else do
    let d ← rchoice (distractorList c) rng
    let p ← randint 0 (pool d.1).length d.2
    pure ((pool d.1).getD p.1 [], p.2)

/-- The loop `for j in range(num_inputs)` of `__getitem__`, filling `n`
rows starting at index `j` and threading the random stream. -/
def buildRows {α : Type} (pool : Fin 10 → List (Img α)) (c : Fin 10)
    (cp : Nat) : Nat → Nat → List Nat → Except DErr (List (Img α) × List Nat)
  | _, 0, rng => .ok ([], rng)
  | j, n + 1, rng => do
    let r ← buildRow pool c cp j rng
    let rest ← buildRows pool c cp (j + 1) n r.2
    pure (r.1 :: rest.1, rest.2)

/-- `MNISTAttentionDataset.__getitem__(idx)`: the query is the corpus
item at `idx` (normalised), `correct_pos` is drawn by
`np.random.randint(0, num_inputs)`, and the candidate rows are filled by
the loop embedded in `buildRows`. -/
def getItem {α : Type} [CommRing α] [Div α] (numInputs : Nat)
    (corpus : List (Fin 10 × Img α)) (idx : Nat) (rng : List Nat) :
    Except DErr (Sample α) :=
  if idx < corpus.length then
    let c := (corpus.getD idx (0, [])).1
    let query := normalize (corpus.getD idx (0, [])).2
    do
      let cp ← randint 0 numInputs rng
      let rows ← buildRows (buildPool corpus) c cp.1 0 numInputs cp.2
      pure ⟨rows.1, query, cp.1⟩
  else .error .indexError

/-- A fully-connected layer `nn.Linear(inF, outF)` with its weight matrix
and bias vector. -/
structure LinearLayer (α : Type) (inF outF : Nat) where
  weight : Fin outF → Fin inF → α
  bias : Fin outF → α

/-- The dot product of a weight row with an input vector. -/
def dotRow {α : Type} [CommRing α] {i : Nat} (w : Fin i → α)
    (x : List α) : α :=
  (List.ofFn (fun c => w c * x.getD c.1 0)).sum

/-- The affine map `W x + b` computed by a linear layer (no shape check;
callers that model PyTorch check the input length first). -/
def LinearLayer.raw {α : Type} [CommRing α] {i o : Nat}
    (l : LinearLayer α i o) (x : List α) : List α :=
  List.ofFn (fun r => dotRow (l.weight r) x + l.bias r)

/-- A linear layer applied as PyTorch applies it: the input's last
dimension must equal `in_features`, otherwise a shape error is raised. -/
def LinearLayer.app {α : Type} [CommRing α] {i o : Nat}
    (l : LinearLayer α i o) (x : List α) : Except TErr (List α) :=
  if x.length = i then .ok (l.raw x) else .error .shapeMismatch

/-- Elementwise activation over a vector (`torch.tanh` on the last
dimension). -/
def vtanh {α : Type} (th : α → α) (v : List α) : List α := v.map th

/-- Elementwise vector addition. -/
def vadd {α : Type} [CommRing α] (a b : List α) : List α :=
  List.zipWith (fun x y => x + y) a b

/-- Effectful map over a list, propagating the first error (the order in
which PyTorch consumes the rows of a batched input). -/
def mapE {α β : Type} (f : α → Except TErr β) : List α → Except TErr (List β)
  | [] => .ok []
  | a :: l => do
    let b ← f a
    let r ← mapE f l
    pure (b :: r)

/-- PyTorch broadcasting of `query + keys` along the position dimension:
equal lengths add elementwise, a length-1 operand is broadcast, anything
else is a shape error. -/
def bAdd {α : Type} [CommRing α] (a b : List (List α)) :
    Except TErr (List (List α)) :=
  if a.length = b.length then .ok (List.zipWith vadd a b)
  else if a.length = 1 then .ok (b.map (fun r => vadd (a.getD 0 []) r))
  else if b.length = 1 then .ok (a.map (fun r => vadd r (b.getD 0 [])))
  else .error .shapeMismatch

/-- `AttentionModel.__init__(input_dim, num_inputs, hidden_dim)`: the
three linear layers `fc_q`, `fc_k` (input_dim → hidden_dim) and `fc_v`
(hidden_dim → 1), plus the stored dimensions. -/
structure AttentionModel (α : Type) where
  input_dim : Nat
  num_inputs : Nat
  hidden_dim : Nat
  fc_q : LinearLayer α input_dim hidden_dim
  fc_k : LinearLayer α input_dim hidden_dim
  fc_v : LinearLayer α hidden_dim 1

/-- `AttentionModel.scoringAdditive(query, keys)` for one batch element:
the query is tiled `num_inputs` times (`query.repeat(1, num_inputs, 1)`),
projected by `fc_q` and passed through `tanh`; the keys are projected by
`fc_k` and passed through `tanh`; the two are added (with broadcasting),
passed through `tanh`, and mapped to scalars by `fc_v`. -/
def scoringAdditive {α : Type} [CommRing α] (th : α → α)
    (m : AttentionModel α) (query : List α) (keys : List (List α)) :
    Except TErr (List (List α)) := do
  let qrep := List.replicate m.num_inputs query
  let qproj ← mapE (fun v => do
    let r ← m.fc_q.app v
    pure (vtanh th r)) qrep
  let kproj ← mapE (fun v => do
    let r ← m.fc_k.app v
    pure (vtanh th r)) keys
  let combined ← bAdd qproj kproj
  let activated := combined.map (vtanh th)
  mapE (fun v => m.fc_v.app v) activated

/-- `AttentionModel.forward(x, query)` for one batch element: the
additive scores with the trailing singleton dimension removed
(`output.squeeze()`). -/
def forward {α : Type} [CommRing α] (th : α → α) (m : AttentionModel α)
    (x : List (List α)) (query : List α) : Except TErr (List α) := do
  let s ← scoringAdditive th m query x
  pure (s.map (fun r => r.getD 0 0))

/-- The per-position additive score written the way the specification
states it: `w_v · tanh(tanh(W_q · query) + tanh(W_k · k))`, one scalar
per candidate, independent of every other candidate. -/
def specScore {α : Type} [CommRing α] (th : α → α) (m : AttentionModel α)
    (q k : List α) : α :=
  (m.fc_v.raw (vtanh th
    (vadd (vtanh th (m.fc_q.raw q)) (vtanh th (m.fc_k.raw k))))).getD 0 0

/-- The scorer invoked with the program's global random stream made
explicit: `scoringAdditive`/`forward` contain no call into the random
source, so a call neither consumes nor alters random state. -/
def forwardR {α : Type} [CommRing α] (th : α → α) (m : AttentionModel α)
    (x : List (List α)) (query : List α) (rng : List Nat) :
    Except TErr (List α) × List Nat :=
  (forward th m x query, rng)

/-- The `evaluate(model, device, test_loader)` accumulation loop: per
batch, `ok` grows by the number of samples whose predicted index equals
the target, and `total` grows by `len(test_loader)` — the number of
batches, not the batch size; the reported value is `ok / total`.  The
model-plus-argmax prediction is abstracted as `predict`. -/
def evaluate {σ : Type} (predict : σ → Nat) (target : σ → Nat)
    (batches : List (List σ)) : ℚ :=
  let r := batches.foldl
    (fun acc batch =>
      (acc.1 + ((batch.filter (fun s => decide (predict s = target s))).length : ℚ),
       acc.2 + (batches.length : ℚ)))
    ((0 : ℚ), (0 : ℚ))
  r.1 / r.2

/-- A linear layer with constant weight `w` and constant bias `b`, used
to instantiate theorems on concrete models. -/
def constLayer (i o : Nat) (w b : ℤ) : LinearLayer ℤ i o :=
  { weight := fun _ _ => w, bias := fun _ => b }

/-- A concrete ten-class corpus: one single-pixel image per class. -/
def corpusW : List (Fin 10 × Img ℤ) :=
  (List.finRange 10).map (fun d => (d, [(d.1 : ℤ)]))

/-- A concrete corpus holding a single image of class 0, so that every
other class pool is empty. -/
def corpusS : List (Fin 10 × Img ℤ) := [((0 : Fin 10), [(1 : ℤ)])]

/-- A concrete model with `input_dim = 1`, `num_inputs = 2`,
`hidden_dim = 1` and unit weights. -/
def mA : AttentionModel ℤ :=
  { input_dim := 1, num_inputs := 2, hidden_dim := 1,
    fc_q := constLayer 1 1 1 0, fc_k := constLayer 1 1 1 0,
    fc_v := constLayer 1 1 1 0 }

/-- A concrete model with `input_dim = 1`, `num_inputs = 1`,
`hidden_dim = 1` and unit weights. -/
def mB : AttentionModel ℤ :=
  { input_dim := 1, num_inputs := 1, hidden_dim := 1,
    fc_q := constLayer 1 1 1 0, fc_k := constLayer 1 1 1 0,
    fc_v := constLayer 1 1 1 0 }

/- ------------------------------------------------------------------
Helper lemmas.
------------------------------------------------------------------ -/

theorem except_bind_ok {ε α β : Type} (a : α) (f : α → Except ε β) :
    (Except.ok a : Except ε α) >>= f = f a := rfl

theorem except_bind_err {ε α β : Type} (e : ε) (f : α → Except ε β) :
    (Except.error e : Except ε α) >>= f = .error e := rfl

theorem except_pure_eq_ok {ε α : Type} {a b : α}
    (h : (pure a : Except ε α) = .ok b) : a = b := Except.ok.inj h

theorem lgetD_lt {α : Type} {l : List α} {n : Nat} (d : α)
    (h : n < l.length) : l.getD n d = l[n] := by
  simp [List.getD_eq_getElem?_getD, List.getElem?_eq_getElem h]

theorem lgetD_mem {α : Type} {l : List α} {n : Nat} (d : α)
    (h : n < l.length) : l.getD n d ∈ l := by
  rw [lgetD_lt d h]; exact List.getElem_mem h

theorem lgetD_ofFn {α : Type} {n : Nat} (f : Fin n → α) (i : Fin n)
    (d : α) : (List.ofFn f).getD i.1 d = f i := by
  have h : i.1 < (List.ofFn f).length := by
    rw [List.length_ofFn]; exact i.2
  rw [lgetD_lt d h]
  simp [List.getElem_ofFn]

theorem vtanh_length {α : Type} (th : α → α) (v : List α) :
    (vtanh th v).length = v.length := List.length_map ..

theorem vadd_length {α : Type} [CommRing α] (a b : List α) :
    (vadd a b).length = min a.length b.length := List.length_zipWith ..

theorem raw_length {α : Type} [CommRing α] {i o : Nat}
    (l : LinearLayer α i o) (x : List α) :
    (l.raw x).length = o := List.length_ofFn ..

theorem app_ok {α : Type} [CommRing α] {i o : Nat} (l : LinearLayer α i o)
    {x : List α} (h : x.length = i) : l.app x = .ok (l.raw x) := by
  simp [LinearLayer.app, h]

theorem app_err {α : Type} [CommRing α] {i o : Nat} (l : LinearLayer α i o)
    {x : List α} (h : x.length ≠ i) : l.app x = .error .shapeMismatch := by
  simp [LinearLayer.app, h]

theorem mapE_ok_of_forall {α β : Type} {f : α → Except TErr β} {g : α → β} :
    ∀ {l : List α}, (∀ a ∈ l, f a = .ok (g a)) → mapE f l = .ok (l.map g)
  | [], _ => rfl
  | a :: l, h => by
    have ha := h a (List.mem_cons_self a l)
    have ih := mapE_ok_of_forall (g := g) (fun b hb => h b (List.mem_cons_of_mem a hb))
    simp [mapE, ha, ih, except_bind_ok]

theorem mapE_ok_length {α β : Type} {f : α → Except TErr β} :
    ∀ {l : List α} {r : List β}, mapE f l = .ok r → r.length = l.length := by
  intro l
  induction l with
  | nil => intro r h; simp [mapE] at h; subst h; rfl
  | cons a t ih =>
    intro r h
    simp only [mapE] at h
    cases hfa : f a with
    | error e => rw [hfa, except_bind_err] at h; exact absurd h (by simp)
    | ok b =>
      rw [hfa, except_bind_ok] at h
      cases hmt : mapE f t with
      | error e => rw [hmt, except_bind_err] at h; exact absurd h (by simp)
      | ok rt =>
        rw [hmt, except_bind_ok] at h
        cases h
        simp [List.length_cons, ih hmt]

theorem mapE_error_of_mem {α β : Type} {f : α → Except TErr β} :
    ∀ {l : List α} {a : α}, a ∈ l → f a = .error .shapeMismatch →
      mapE f l = .error .shapeMismatch := by
  intro l
  induction l with
  | nil => intro a ha; exact absurd ha (List.not_mem_nil a)
  | cons b t ih =>
    intro a ha hfa
    simp only [mapE]
    rcases List.mem_cons.1 ha with h | h
    · subst h; rw [hfa, except_bind_err]
    · cases hfb : f b with
      | error e => cases e; rw [except_bind_err]
      | ok v => rw [except_bind_ok, ih h hfa, except_bind_err]

theorem mapE_cases {α β : Type} (f : α → Except TErr β) (l : List α) :
    mapE f l = .error .shapeMismatch ∨
      ∃ r, mapE f l = .ok r ∧ r.length = l.length := by
  cases h : mapE f l with
  | error e => cases e; exact Or.inl rfl
  | ok r => exact Or.inr ⟨r, rfl, mapE_ok_length h⟩

theorem zipWith_replicate_left {α β γ : Type} (f : α → β → γ) (a : α) :
    ∀ l : List β, List.zipWith f (List.replicate l.length a) l = l.map (f a)
  | [] => rfl
  | b :: t => by
    simp [List.replicate_succ, zipWith_replicate_left f a t]

theorem forward_ok_map {α : Type} [CommRing α] (th : α → α)
    (m : AttentionModel α) (query : List α) (keys : List (List α))
    (hq : query.length = m.input_dim)
    (hk : ∀ k ∈ keys, k.length = m.input_dim)
    (hn : keys.length = m.num_inputs) :
    forward th m keys query = .ok (keys.map (specScore th m query)) := by
  set Q : List α := vtanh th (m.fc_q.raw query) with hQ
  have hqproj : mapE (fun v => do
      let r ← m.fc_q.app v
      pure (vtanh th r)) (List.replicate m.num_inputs query)
      = .ok (List.replicate m.num_inputs Q) := by
    have h1 : ∀ v ∈ List.replicate m.num_inputs query,
        (do let r ← m.fc_q.app v
            pure (vtanh th r) : Except TErr (List α)) = .ok Q := by
      intro v hv
      rw [List.eq_of_mem_replicate hv, app_ok m.fc_q hq, except_bind_ok]
      rfl
    rw [mapE_ok_of_forall h1, List.map_replicate]
  have hkproj : mapE (fun v => do
      let r ← m.fc_k.app v
      pure (vtanh th r)) keys
      = .ok (keys.map (fun k => vtanh th (m.fc_k.raw k))) := by
    refine mapE_ok_of_forall ?_
    intro v hv
    rw [app_ok m.fc_k (hk v hv), except_bind_ok]
    rfl
  have hlen : (List.replicate m.num_inputs Q).length
      = (keys.map (fun k => vtanh th (m.fc_k.raw k))).length := by
    rw [List.length_replicate, List.length_map, hn]
  have hbadd : bAdd (List.replicate m.num_inputs Q)
      (keys.map (fun k => vtanh th (m.fc_k.raw k)))
      = .ok (keys.map (fun k => vadd Q (vtanh th (m.fc_k.raw k)))) := by
    rw [bAdd, if_pos hlen]
    have h2 : List.replicate m.num_inputs Q
        = List.replicate (keys.map (fun k => vtanh th (m.fc_k.raw k))).length Q := by
      rw [List.length_map, hn]
    rw [h2, zipWith_replicate_left, List.map_map]
    simp [Function.comp]
  have hfcv : mapE (fun v => m.fc_v.app v)
      ((keys.map (fun k => vadd Q (vtanh th (m.fc_k.raw k)))).map (vtanh th))
      = .ok (((keys.map (fun k => vadd Q (vtanh th (m.fc_k.raw k)))).map (vtanh th)).map
          (fun v => m.fc_v.raw v)) := by
    refine mapE_ok_of_forall ?_
    intro v hv
    rcases List.mem_map.1 hv with ⟨w, hw, hwv⟩
    rcases List.mem_map.1 hw with ⟨k, hkmem, hkw⟩
    have hvlen : v.length = m.hidden_dim := by
      rw [← hwv, vtanh_length, ← hkw, vadd_length, hQ, vtanh_length,
        raw_length, vtanh_length, raw_length, Nat.min_self]
    exact app_ok m.fc_v hvlen
  rw [forward, scoringAdditive, hqproj, except_bind_ok, hkproj, except_bind_ok,
    hbadd, except_bind_ok, hfcv, except_bind_ok]
  show Except.ok _ = _
  refine congrArg Except.ok ?_
  rw [List.map_map, List.map_map, List.map_map]
  exact List.map_congr_left (fun k _ => rfl)

theorem scoringAdditive_ok_shape {α : Type} [CommRing α] {th : α → α}
    {m : AttentionModel α} {query : List α} {keys : List (List α)}
    {s : List (List α)}
    (h : scoringAdditive th m query keys = .ok s) :
    (m.num_inputs = keys.length ∧ s.length = keys.length) ∨
    (m.num_inputs ≠ keys.length ∧ m.num_inputs = 1 ∧ s.length = keys.length) ∨
    (m.num_inputs ≠ keys.length ∧ m.num_inputs ≠ 1 ∧ keys.length = 1 ∧
      s.length = m.num_inputs) := by
  rw [scoringAdditive] at h
  rcases mapE_cases (fun v => do
      let r ← m.fc_q.app v
      pure (vtanh th r)) (List.replicate m.num_inputs query) with hq | ⟨qproj, hq, hqlen⟩
  · rw [hq, except_bind_err] at h; exact absurd h (by simp)
  rw [hq, except_bind_ok] at h
  rcases mapE_cases (fun v => do
      let r ← m.fc_k.app v
      pure (vtanh th r)) keys with hk | ⟨kproj, hk, hklen⟩
  · rw [hk, except_bind_err] at h; exact absurd h (by simp)
  rw [hk, except_bind_ok] at h
  rw [List.length_replicate] at hqlen
  by_cases hmn : qproj.length = kproj.length
  · rw [bAdd, if_pos hmn, except_bind_ok] at h
    have hslen : s.length = keys.length := by
      have := mapE_ok_length h
      rw [this, List.length_map, List.length_zipWith, hmn, Nat.min_self, hklen]
    exact Or.inl ⟨by omega, hslen⟩
  · by_cases h1 : qproj.length = 1
    · rw [bAdd, if_neg hmn, if_pos h1, except_bind_ok] at h
      have hslen : s.length = keys.length := by
        have := mapE_ok_length h
        rw [this, List.length_map, List.length_map, hklen]
      exact Or.inr (Or.inl ⟨by omega, by omega, hslen⟩)
    · by_cases h2 : kproj.length = 1
      · rw [bAdd, if_neg hmn, if_neg h1, if_pos h2, except_bind_ok] at h
        have hslen : s.length = m.num_inputs := by
          have := mapE_ok_length h
          rw [this, List.length_map, List.length_map, hqlen]
        exact Or.inr (Or.inr ⟨by omega, by omega, by omega, hslen⟩)
      · rw [bAdd, if_neg hmn, if_neg h1, if_neg h2, except_bind_err] at h
        exact absurd h (by simp)

theorem scoringAdditive_err_shape {α : Type} [CommRing α] (th : α → α)
    (m : AttentionModel α) (query : List α) (keys : List (List α))
    (hmn : m.num_inputs ≠ keys.length) (h1 : m.num_inputs ≠ 1)
    (h2 : keys.length ≠ 1) :
    scoringAdditive th m query keys = .error .shapeMismatch := by
  rw [scoringAdditive]
  rcases mapE_cases (fun v => do
      let r ← m.fc_q.app v
      pure (vtanh th r)) (List.replicate m.num_inputs query) with hq | ⟨qproj, hq, hqlen⟩
  · rw [hq, except_bind_err]
  rw [hq, except_bind_ok]
  rcases mapE_cases (fun v => do
      let r ← m.fc_k.app v
      pure (vtanh th r)) keys with hk | ⟨kproj, hk, hklen⟩
  · rw [hk, except_bind_err]
  rw [hk, except_bind_ok]
  rw [List.length_replicate] at hqlen
  rw [bAdd, if_neg (by omega), if_neg (by omega), if_neg (by omega), except_bind_err]

theorem scoringAdditive_err_query {α : Type} [CommRing α] (th : α → α)
    (m : AttentionModel α) (query : List α) (keys : List (List α))
    (hM : 0 < m.num_inputs) (hq : query.length ≠ m.input_dim) :
    scoringAdditive th m query keys = .error .shapeMismatch := by
  rw [scoringAdditive]
  have hmem : query ∈ List.replicate m.num_inputs query :=
    List.mem_replicate.2 ⟨by omega, rfl⟩
  have hfq : (do
      let r ← m.fc_q.app query
      pure (vtanh th r) : Except TErr (List α)) = .error .shapeMismatch := by
    rw [app_err m.fc_q hq, except_bind_err]
  rw [mapE_error_of_mem hmem hfq, except_bind_err]

theorem scoringAdditive_err_key {α : Type} [CommRing α] (th : α → α)
    (m : AttentionModel α) (query : List α) (keys : List (List α))
    (k : List α) (hkm : k ∈ keys) (hlen : k.length ≠ m.input_dim) :
    scoringAdditive th m query keys = .error .shapeMismatch := by
  rw [scoringAdditive]
  rcases mapE_cases (fun v => do
      let r ← m.fc_q.app v
      pure (vtanh th r)) (List.replicate m.num_inputs query) with hq | ⟨qproj, hq, _⟩
  · rw [hq, except_bind_err]
  rw [hq, except_bind_ok]
  have hfk : (do
      let r ← m.fc_k.app k
      pure (vtanh th r) : Except TErr (List α)) = .error .shapeMismatch := by
    rw [app_err m.fc_k hlen, except_bind_err]
  rw [mapE_error_of_mem hkm hfk, except_bind_err]

theorem forward_of_scoring_err {α : Type} [CommRing α] {th : α → α}
    {m : AttentionModel α} {query : List α} {keys : List (List α)}
    (h : scoringAdditive th m query keys = .error .shapeMismatch) :
    forward th m keys query = .error .shapeMismatch := by
  rw [forward, h, except_bind_err]

theorem forward_ok_shape {α : Type} [CommRing α] {th : α → α}
    {m : AttentionModel α} {query : List α} {keys : List (List α)}
    {scores : List α}
    (h : forward th m keys query = .ok scores) :
    ∃ s, scoringAdditive th m query keys = .ok s ∧
      scores.length = s.length := by
  rw [forward] at h
  cases hs : scoringAdditive th m query keys with
  | error e => rw [hs, except_bind_err] at h; exact absurd h (by simp)
  | ok s =>
    rw [hs, except_bind_ok] at h
    have := except_pure_eq_ok h
    exact ⟨s, rfl, by rw [← this, List.length_map]⟩

/- ------------------------------------------------------------------
Claim theorems: the additive attention scorer.
------------------------------------------------------------------ -/

/-- C2 counterexample: with `num_inputs = 2`, a single candidate is
broadcast, so the result is not the ordered length-1 sequence of
per-position scores that the claim requires for every candidate
sequence. -/
theorem scoringAdditive_formula_cex :
    forward (fun x => x) mA [[(1 : ℤ)]] [(0 : ℤ)] ≠
      .ok ([[(1 : ℤ)]].map (specScore (fun x => x) mA [(0 : ℤ)])) := by
  decide

/-- C2 (amended): for a query of length `input_dim`, candidates each of
length `input_dim` and candidate count equal to the construction-time
`num_inputs`, the scorer output is exactly the ordered sequence of
per-position additive scores `w_v · tanh(tanh(W_q q) + tanh(W_k k_i))`. -/
theorem scoringAdditive_formula {α : Type} [CommRing α] (th : α → α)
    (m : AttentionModel α) (query : List α) (keys : List (List α))
    (hq : query.length = m.input_dim)
    (hk : ∀ k ∈ keys, k.length = m.input_dim)
    (hn : keys.length = m.num_inputs) :
    forward th m keys query = .ok (keys.map (specScore th m query)) :=
  forward_ok_map th m query keys hq hk hn

/-- Witness for the amended C2 theorem at a concrete model and input. -/
theorem scoringAdditive_formula_witness :
    (([(0 : ℤ)] : List ℤ).length = mA.input_dim ∧
      (∀ k ∈ ([[(1 : ℤ)], [(2 : ℤ)]] : List (List ℤ)), k.length = mA.input_dim) ∧
      ([[(1 : ℤ)], [(2 : ℤ)]] : List (List ℤ)).length = mA.num_inputs) ∧
    forward (fun x => x) mA [[(1 : ℤ)], [(2 : ℤ)]] [(0 : ℤ)] =
      .ok ([[(1 : ℤ)], [(2 : ℤ)]].map (specScore (fun x => x) mA [(0 : ℤ)])) :=
  ⟨⟨by decide, by decide, by decide⟩,
    scoringAdditive_formula (fun x => x) mA [0] [[1], [2]]
      (by decide) (by decide) (by decide)⟩

/-- C3 counterexample: a model built with `num_inputs = 2` scored on a
single candidate returns two scores, not one. -/
theorem score_length_cex :
    (forward (fun x => x) mA [[(1 : ℤ)]] [(0 : ℤ)]).toOption.map List.length
      = some 2 := by
  decide

/-- C3 (amended): when the scorer succeeds, the output length equals the
candidate count except in the broadcast case of a single candidate
against `num_inputs ≠ 1`, where `num_inputs` scores are returned; in
particular the length equals `N` whenever `N = num_inputs`. -/
theorem score_length_amended {α : Type} [CommRing α] (th : α → α)
    (m : AttentionModel α) (query : List α) (keys : List (List α))
    (scores : List α)
    (h : forward th m keys query = .ok scores) :
    (keys.length = m.num_inputs → scores.length = keys.length) ∧
    (scores.length = keys.length ∨
      (keys.length = 1 ∧ scores.length = m.num_inputs)) := by
  rcases forward_ok_shape h with ⟨s, hs, hlen⟩
  rcases scoringAdditive_ok_shape hs with ⟨h1, h2⟩ | ⟨h1, _, h2⟩ | ⟨h1, hni, hk1, h2⟩
  · exact ⟨fun _ => by omega, Or.inl (by omega)⟩
  · exact ⟨fun hh => by omega, Or.inl (by omega)⟩
  · exact ⟨fun hh => absurd hh (by omega), Or.inr ⟨hk1, by omega⟩⟩

/-- Witness for the amended C3 theorem at a concrete model and input. -/
theorem score_length_amended_witness :
    forward (fun x => x) mB [[(0 : ℤ)]] [(0 : ℤ)] = .ok [(0 : ℤ)] ∧
    ((([[(0 : ℤ)]] : List (List ℤ)).length = mB.num_inputs →
        ([(0 : ℤ)] : List ℤ).length = ([[(0 : ℤ)]] : List (List ℤ)).length) ∧
      (([(0 : ℤ)] : List ℤ).length = ([[(0 : ℤ)]] : List (List ℤ)).length ∨
        (([[(0 : ℤ)]] : List (List ℤ)).length = 1 ∧
          ([(0 : ℤ)] : List ℤ).length = mB.num_inputs))) :=
  ⟨by decide, score_length_amended (fun x => x) mB [0] [[0]] [0] (by decide)⟩

/-- C4: permuting the candidate sequence permutes the score vector
identically — each score depends only on the query and the candidate at
its own position. -/
theorem score_permutation {α : Type} [CommRing α] (th : α → α)
    (m : AttentionModel α) (query : List α) (n : Nat) (ks : Fin n → List α)
    (p : Equiv.Perm (Fin n))
    (hq : query.length = m.input_dim)
    (hk : ∀ i, (ks i).length = m.input_dim)
    (hn : n = m.num_inputs) :
    ∃ s1 s2,
      forward th m (List.ofFn ks) query = .ok s1 ∧
      forward th m (List.ofFn (fun i => ks (p i))) query = .ok s2 ∧
      s1.length = n ∧ s2.length = n ∧
      ∀ i : Fin n, s2.getD i.1 0 = s1.getD (p i).1 0 := by
  have hmem1 : ∀ k ∈ List.ofFn ks, k.length = m.input_dim := by
    intro k hkm
    rcases Set.mem_range.1 ((List.mem_ofFn ks k).1 hkm) with ⟨i, rfl⟩
    exact hk i
  have hmem2 : ∀ k ∈ List.ofFn (fun i => ks (p i)), k.length = m.input_dim := by
    intro k hkm
    rcases Set.mem_range.1 ((List.mem_ofFn (fun i => ks (p i)) k).1 hkm) with ⟨i, rfl⟩
    exact hk (p i)
  have h1 := forward_ok_map th m query (List.ofFn ks) hq hmem1
    (by rw [List.length_ofFn, hn])
  have h2 := forward_ok_map th m query (List.ofFn (fun i => ks (p i))) hq hmem2
    (by rw [List.length_ofFn, hn])
  refine ⟨_, _, h1, h2, ?_, ?_, ?_⟩
  · rw [List.length_map, List.length_ofFn]
  · rw [List.length_map, List.length_ofFn]
  · intro i
    rw [List.map_ofFn, List.map_ofFn, lgetD_ofFn, lgetD_ofFn]
    rfl

/-- Witness for the C4 theorem: swapping two concrete candidates swaps
the two scores. -/
theorem score_permutation_witness :
    (([(5 : ℤ)] : List ℤ).length = mA.input_dim ∧
      (∀ i : Fin 2, ([((i.1 : ℤ))] : List ℤ).length = mA.input_dim) ∧
      2 = mA.num_inputs) ∧
    (∃ s1 s2,
      forward (fun x => x) mA (List.ofFn (fun i : Fin 2 => [((i.1 : ℤ))])) [(5 : ℤ)]
        = .ok s1 ∧
      forward (fun x => x) mA
          (List.ofFn (fun i : Fin 2 =>
            [((((Equiv.swap (0 : Fin 2) 1) i).1 : ℤ))])) [(5 : ℤ)]
        = .ok s2 ∧
      s1.length = 2 ∧ s2.length = 2 ∧
      ∀ i : Fin 2, s2.getD i.1 0 = s1.getD ((Equiv.swap (0 : Fin 2) 1) i).1 0) :=
  ⟨⟨by decide, by decide, by decide⟩,
    score_permutation (fun x => x) mA [5] 2 (fun i => [((i.1 : ℤ))])
      (Equiv.swap 0 1) (by decide) (by decide) (by decide)⟩

/-- C7 counterexample: with `num_inputs = 1` an empty candidate sequence
broadcasts to an empty sum and the scorer returns an empty score list
instead of a shape error. -/
theorem shape_error_empty_cex :
    forward (fun x => x) mB [] [(0 : ℤ)] = .ok [] := by
  decide

/-- C7 (amended): a query of the wrong length (for any `num_inputs ≥ 1`)
or any candidate of the wrong length raises a shape error, and an empty
candidate sequence raises a shape error when `num_inputs ≥ 2`; for
`num_inputs ≤ 1` the empty sequence is accepted by broadcasting. -/
theorem shape_error_amended {α : Type} [CommRing α] (th : α → α)
    (m : AttentionModel α) (query : List α) (keys : List (List α)) :
    (0 < m.num_inputs → query.length ≠ m.input_dim →
      forward th m keys query = .error .shapeMismatch) ∧
    (∀ k ∈ keys, k.length ≠ m.input_dim →
      forward th m keys query = .error .shapeMismatch) ∧
    (keys = [] → 2 ≤ m.num_inputs →
      forward th m keys query = .error .shapeMismatch) := by
  refine ⟨fun hM hq =>
      forward_of_scoring_err (scoringAdditive_err_query th m query keys hM hq),
    fun k hkm hlen =>
      forward_of_scoring_err (scoringAdditive_err_key th m query keys k hkm hlen),
    fun hkeys hM => ?_⟩
  subst hkeys
  exact forward_of_scoring_err
    (scoringAdditive_err_shape th m query [] (by simp; omega) (by omega) (by simp))

/-- Witness for the amended C7 theorem: all three failure modes on
concrete inputs. -/
theorem shape_error_amended_witness :
    (0 < mA.num_inputs ∧ ([(0 : ℤ), 0] : List ℤ).length ≠ mA.input_dim ∧
      forward (fun x => x) mA [[(0 : ℤ)]] [(0 : ℤ), 0] = .error .shapeMismatch) ∧
    (([(0 : ℤ), 0] : List ℤ) ∈ ([[(0 : ℤ), 0]] : List (List ℤ)) ∧
      ([(0 : ℤ), 0] : List ℤ).length ≠ mA.input_dim ∧
      forward (fun x => x) mA [[(0 : ℤ), 0]] [(0 : ℤ)] = .error .shapeMismatch) ∧
    (2 ≤ mA.num_inputs ∧
      forward (fun x => x) mA [] [(0 : ℤ)] = .error .shapeMismatch) :=
  ⟨⟨by decide, by decide,
      (shape_error_amended (fun x => x) mA [0, 0] [[0]]).1 (by decide) (by decide)⟩,
    ⟨by decide, by decide,
      (shape_error_amended (fun x => x) mA [0] [[0, 0]]).2.1 [0, 0]
        (by decide) (by decide)⟩,
    ⟨by decide,
      (shape_error_amended (fun x => x) mA [0] []).2.2 rfl (by decide)⟩⟩

/-- C8: the scorer is deterministic — it neither reads nor advances the
program's random state, so repeated calls on fixed parameters and inputs
return identical results. -/
theorem score_deterministic {α : Type} [CommRing α] (th : α → α)
    (m : AttentionModel α) (x : List (List α)) (query : List α)
    (rng : List Nat) :
    (forwardR th m x query ((forwardR th m x query rng).2)).1
      = (forwardR th m x query rng).1 ∧
    (forwardR th m x query rng).2 = rng ∧
    ∀ rng2, (forwardR th m x query rng2).1 = (forwardR th m x query rng).1 :=
  ⟨rfl, rfl, fun _ => rfl⟩

/-- C10: the query is tiled to the construction-time `num_inputs`; a call
succeeds only when the candidate count equals `num_inputs` or broadcasts
against it (one side equal to 1), and any other candidate count raises a
shape error rather than returning that many scores. -/
theorem query_tiling_num_inputs {α : Type} [CommRing α] (th : α → α)
    (m : AttentionModel α) (query : List α) (keys : List (List α)) :
    (∀ scores, forward th m keys query = .ok scores →
      keys.length = m.num_inputs ∨ keys.length = 1 ∨ m.num_inputs = 1) ∧
    (keys.length ≠ m.num_inputs → keys.length ≠ 1 → m.num_inputs ≠ 1 →
      forward th m keys query = .error .shapeMismatch) := by
  constructor
  · intro scores h
    rcases forward_ok_shape h with ⟨s, hs, _⟩
    rcases scoringAdditive_ok_shape hs with ⟨h1, _⟩ | ⟨_, h1, _⟩ | ⟨_, _, h1, _⟩
    · exact Or.inl h1.symm
    · exact Or.inr (Or.inr h1)
    · exact Or.inr (Or.inl h1)
  · intro hmn h1 hM1
    exact forward_of_scoring_err
      (scoringAdditive_err_shape th m query keys (fun hh => hmn hh.symm) hM1 h1)

/-- Witness for the C10 theorem: three candidates against
`num_inputs = 2` raise a shape error, while two candidates are accepted. -/
theorem query_tiling_num_inputs_witness :
    (([[(0 : ℤ)], [0], [0]] : List (List ℤ)).length ≠ mA.num_inputs ∧
      ([[(0 : ℤ)], [0], [0]] : List (List ℤ)).length ≠ 1 ∧ mA.num_inputs ≠ 1 ∧
      forward (fun x => x) mA [[(0 : ℤ)], [0], [0]] [(0 : ℤ)]
        = .error .shapeMismatch) ∧
    (([[(0 : ℤ)], [0]] : List (List ℤ)).length = mA.num_inputs ∨
      ([[(0 : ℤ)], [0]] : List (List ℤ)).length = 1 ∨ mA.num_inputs = 1) :=
  ⟨⟨by decide, by decide, by decide,
      (query_tiling_num_inputs (fun x => x) mA [0] [[0], [0], [0]]).2
        (by decide) (by decide) (by decide)⟩,
    (query_tiling_num_inputs (fun x => x) mA [0] [[0], [0]]).1 [0, 0]
      (by decide)⟩

/- ------------------------------------------------------------------
Claim theorems: evaluate loop and dataset error handling / construction.
------------------------------------------------------------------ -/

theorem evaluate_foldl {σ : Type} (f : σ → ℚ) (c : ℚ) :
    ∀ (l : List σ) (a b : ℚ),
      List.foldl (fun acc x => (acc.1 + f x, acc.2 + c)) (a, b) l
        = (a + (l.map f).sum, b + l.length * c)
  | [], a, b => by simp
  | x :: t, a, b => by
    rw [List.foldl_cons, evaluate_foldl f c t]
    rw [List.map_cons, List.sum_cons, List.length_cons]
    simp only [Prod.mk.injEq]
    constructor
    · ring
    · push_cast
      ring

/-- C9: the `evaluate` loop adds `len(test_loader)` — the number of
batches — to the denominator once per batch, so with `B` batches the
reported accuracy is (number of correct predictions) / (B · B), not
correct / (number of samples). -/
theorem evaluate_denominator {σ : Type} (predict : σ → Nat) (target : σ → Nat)
    (batches : List (List σ)) :
    evaluate predict target batches =
      ((batches.map (fun b =>
          ((b.filter (fun s => decide (predict s = target s))).length : ℚ))).sum)
        / ((batches.length : ℚ) * (batches.length : ℚ)) := by
  simp only [evaluate]
  rw [evaluate_foldl]
  simp

theorem buildRow_error_eq {α : Type} {pool : Fin 10 → List (Img α)}
    {c : Fin 10} {cp j : Nat} {rng : List Nat} {e : DErr}
    (h : buildRow pool c cp j rng = .error e) : e = .valueError := by
  rw [buildRow] at h
  split at h
  · rw [randint] at h
    split at h
    · rw [except_bind_err] at h
      injection h with h2
      exact h2.symm
    · rw [except_bind_ok] at h
      exact Except.noConfusion h
  · rw [rchoice] at h
    split at h
    · rw [except_bind_err] at h
      injection h with h2
      exact h2.symm
    · rw [except_bind_ok, randint] at h
      split at h
      · rw [except_bind_err] at h
        injection h with h2
        exact h2.symm
      · rw [except_bind_ok] at h
        exact Except.noConfusion h

theorem buildRows_err {α : Type} (pool : Fin 10 → List (Img α)) (c : Fin 10)
    (cp : Nat) (hsucc : pool (succClass c) = []) :
    ∀ (n j : Nat) (rng : List Nat), j ≤ cp → cp < j + n →
      buildRows pool c cp j n rng = .error .valueError
  | 0, j, rng, h1, h2 => by omega
  | n + 1, j, rng, h1, h2 => by
    by_cases hj : j = cp
    · have hrow : buildRow pool c cp j rng = .error .valueError := by
        rw [buildRow, if_pos hj, hsucc]
        rw [show ([] : List (Img α)).length = 0 from rfl]
        rw [randint, if_pos (by omega), except_bind_err]
      simp only [buildRows]
      rw [hrow, except_bind_err]
    · cases hrow : buildRow pool c cp j rng with
      | error e =>
        have he := buildRow_error_eq hrow
        subst he
        simp only [buildRows]
        rw [hrow, except_bind_err]
      | ok r =>
        simp only [buildRows]
        rw [hrow, except_bind_ok,
          buildRows_err pool c cp hsucc n (j + 1) r.2 (by omega) (by omega),
          except_bind_err]

/-- C5: when the pool of the successor class `(c+1) % 10` of the query's
class is empty, `__getitem__` fails with the NumPy `ValueError` raised by
`np.random.randint(0, 0)` (the spec's `DataUnavailableError`); it never
returns a silent empty or partial sample. -/
theorem getItem_empty_pool_error {α : Type} [CommRing α] [Div α]
    (numInputs : Nat) (corpus : List (Fin 10 × Img α)) (idx : Nat)
    (rng : List Nat) (h1 : idx < corpus.length)
    (h2 : buildPool corpus (succClass (corpus.getD idx (0, [])).1) = []) :
    getItem numInputs corpus idx rng = .error .valueError := by
  rw [getItem, if_pos h1]
  by_cases hN : numInputs = 0
  · subst hN
    rw [randint, if_pos (by omega), except_bind_err]
  · rw [randint, if_neg (by omega), except_bind_ok]
    rw [buildRows_err (buildPool corpus) _ _ h2 numInputs 0 _ (by omega)
      (by simp; exact Nat.mod_lt _ (by omega)), except_bind_err]

/-- Witness for the C5 theorem at a concrete one-image corpus whose
successor-class pool is empty. -/
theorem getItem_empty_pool_error_witness :
    ((0 : Nat) < corpusS.length ∧
      buildPool corpusS (succClass ((corpusS.getD 0 (0, [])).1)) = []) ∧
    getItem 3 corpusS 0 [] = .error .valueError :=
  ⟨⟨by decide, by decide⟩,
    getItem_empty_pool_error 3 corpusS 0 [] (by decide) (by decide)⟩

/-- C6 counterexample: on a corpus in which class 3 (among others) has
zero items, the constructor does not fail — it returns a pool with an
empty list for the missing classes and the normalised image for the
present one.  There is no failure path in `__init__` at all. -/
theorem init_no_error_cex :
    buildPool corpusS 3 = [] ∧ buildPool corpusS 0 = [normalize [(1 : ℤ)]] := by
  decide

theorem filter_label_sum {β : Type} :
    ∀ l : List (Fin 10 × β),
      (∑ d : Fin 10, (l.filter (fun p => decide (p.1 = d))).length) = l.length
  | [] => by simp
  | a :: t => by
    have hstep : ∀ d : Fin 10,
        ((a :: t).filter (fun p => decide (p.1 = d))).length
          = (if a.1 = d then 1 else 0)
            + (t.filter (fun p => decide (p.1 = d))).length := by
      intro d
      by_cases h : a.1 = d
      · simp [List.filter_cons, h]
        omega
      · simp [List.filter_cons, h]
    rw [Finset.sum_congr rfl (fun d _ => hstep d), Finset.sum_add_distrib,
      filter_label_sum t]
    simp [Finset.sum_ite_eq, List.length_cons]
    omega

/-- C6 (amended): dataset construction never fails; for every corpus —
including corpora in which some label has zero items — it partitions the
corpus by label: pool `d` holds exactly the normalised images labelled
`d`, and the pool sizes over the ten classes sum to the corpus size. -/
theorem buildPool_partitions {α : Type} [CommRing α] [Div α]
    (corpus : List (Fin 10 × Img α)) :
    (∀ (d : Fin 10) (x : Img α),
      x ∈ buildPool corpus d ↔ ∃ img, (d, img) ∈ corpus ∧ x = normalize img) ∧
    (∑ d : Fin 10, (buildPool corpus d).length) = corpus.length := by
  constructor
  · intro d x
    simp only [buildPool, List.mem_map, List.mem_filter, decide_eq_true_eq]
    constructor
    · rintro ⟨⟨p1, p2⟩, ⟨hp, hd⟩, rfl⟩
      subst hd
      exact ⟨p2, hp, rfl⟩
    · rintro ⟨img, him, rfl⟩
      exact ⟨(d, img), ⟨him, rfl⟩, rfl⟩
  · have hlen : ∀ d : Fin 10, (buildPool corpus d).length
        = (corpus.filter (fun p => decide (p.1 = d))).length := by
      intro d
      rw [buildPool, List.length_map]
    rw [Finset.sum_congr rfl (fun d _ => hlen d)]
    exact filter_label_sum corpus

/- ------------------------------------------------------------------
Claim theorems: dataset sample invariants.
------------------------------------------------------------------ -/

theorem distractorList_facts :
    ∀ c : Fin 10, (distractorList c).length = 9 ∧ (distractorList c).Nodup ∧
      ∀ d : Fin 10, (d ∈ distractorList c ↔ d ≠ succClass c) := by
  decide

theorem buildRow_ok {α : Type} (pool : Fin 10 → List (Img α)) (c : Fin 10)
    (cp j : Nat) (rng : List Nat) (hp : ∀ d, pool d ≠ []) :
    ∃ row rng2, buildRow pool c cp j rng = .ok (row, rng2) ∧
      (j = cp → row ∈ pool (succClass c)) ∧
      (j ≠ cp → ∃ d, d ≠ succClass c ∧ row ∈ pool d) := by
  by_cases hj : j = cp
  · rw [buildRow, if_pos hj]
    have hlen : 0 < (pool (succClass c)).length :=
      List.length_pos.2 (hp (succClass c))
    rw [randint, if_neg (by omega), except_bind_ok]
    refine ⟨_, _, rfl, fun _ => ?_, fun hh => absurd hj hh⟩
    exact lgetD_mem []
      (by
        have := Nat.mod_lt (rdraw rng).1 (show 0 < (pool (succClass c)).length - 0 by omega)
        omega)
  · rw [buildRow, if_neg hj]
    have h9 : ¬(distractorList c).length = 0 := by
      rw [(distractorList_facts c).1]
      omega
    rw [rchoice, dif_neg h9, except_bind_ok]
    dsimp only
    have hdm : (distractorList c).get
        ⟨(rdraw rng).1 % (distractorList c).length,
          Nat.mod_lt _ (Nat.pos_of_ne_zero h9)⟩ ∈ distractorList c :=
      List.get_mem ..
    have hdne := ((distractorList_facts c).2.2 _).1 hdm
    have hlen : 0 < (pool ((distractorList c).get
        ⟨(rdraw rng).1 % (distractorList c).length,
          Nat.mod_lt _ (Nat.pos_of_ne_zero h9)⟩)).length :=
      List.length_pos.2 (hp _)
    rw [randint, if_neg (by omega), except_bind_ok]
    refine ⟨_, _, rfl, fun hh => absurd hh hj, fun _ => ⟨_, hdne, ?_⟩⟩
    exact lgetD_mem []
      (by
        have := Nat.mod_lt (rdraw (rdraw rng).2).1
          (show 0 < (pool ((distractorList c).get
            ⟨(rdraw rng).1 % (distractorList c).length,
              Nat.mod_lt _ (Nat.pos_of_ne_zero h9)⟩)).length - 0 by omega)
        omega)

theorem buildRows_ok {α : Type} (pool : Fin 10 → List (Img α)) (c : Fin 10)
    (cp : Nat) (hp : ∀ d, pool d ≠ []) :
    ∀ (n j : Nat) (rng : List Nat), ∃ rows rng2,
      buildRows pool c cp j n rng = .ok (rows, rng2) ∧ rows.length = n ∧
      ∀ k, k < n →
        ((j + k = cp → rows.getD k [] ∈ pool (succClass c)) ∧
         (j + k ≠ cp → ∃ d, d ≠ succClass c ∧ rows.getD k [] ∈ pool d))
  | 0, j, rng => ⟨[], rng, rfl, rfl, fun k hk => absurd hk (by omega)⟩
  | n + 1, j, rng => by
    obtain ⟨row, rng1, hrow, hcp, hncp⟩ := buildRow_ok pool c cp j rng hp
    obtain ⟨rows, rng2, hrows, hlen, hspec⟩ :=
      buildRows_ok pool c cp hp n (j + 1) rng1
    refine ⟨row :: rows, rng2, ?_, by simp [hlen], ?_⟩
    · simp only [buildRows]
      rw [hrow, except_bind_ok]
      dsimp only
      rw [hrows, except_bind_ok]
      rfl
    · intro k hk
      cases k with
      | zero =>
        constructor
        · intro h0
          rw [List.getD_cons_zero]
          exact hcp (by omega)
        · intro h0
          rw [List.getD_cons_zero]
          exact hncp (by omega)
      | succ k2 =>
        have hk2 : k2 < n := by omega
        constructor
        · intro h0
          rw [List.getD_cons_succ]
          exact (hspec k2 hk2).1 (by omega)
        · intro h0
          rw [List.getD_cons_succ]
          exact (hspec k2 hk2).2 (by omega)

theorem getItem_ok_char {α : Type} [CommRing α] [Div α] (numInputs : Nat)
    (corpus : List (Fin 10 × Img α)) (idx : Nat) (rng : List Nat)
    (h1 : idx < corpus.length) (h2 : 0 < numInputs)
    (h3 : ∀ d, buildPool corpus d ≠ []) :
    ∃ s, getItem numInputs corpus idx rng = .ok s ∧
      s.y = rng.headD 0 % numInputs ∧
      s.x.length = numInputs ∧
      s.query = normalize (corpus.getD idx (0, [])).2 ∧
      (s.x.getD s.y [] ∈ buildPool corpus (succClass (corpus.getD idx (0, [])).1)) ∧
      (∀ j, j < numInputs → j ≠ s.y →
        ∃ d, d ≠ succClass (corpus.getD idx (0, [])).1 ∧
          s.x.getD j [] ∈ buildPool corpus d) := by
  rw [getItem, if_pos h1]
  rw [randint, if_neg (by omega), except_bind_ok]
  dsimp only
  have hcp : (0 + (rdraw rng).1 % (numInputs - 0)) < numInputs := by
    have := Nat.mod_lt (rdraw rng).1 (show 0 < numInputs - 0 by omega)
    omega
  obtain ⟨rows, rng2, hrows, hlen, hspec⟩ :=
    buildRows_ok (buildPool corpus) (corpus.getD idx (0, [])).1
      (0 + (rdraw rng).1 % (numInputs - 0)) h3 numInputs 0 (rdraw rng).2
  rw [hrows, except_bind_ok]
  refine ⟨_, rfl, ?_, hlen, rfl, ?_, ?_⟩
  · simp [rdraw]
  · exact (hspec _ hcp).1 (by omega)
  · intro j hj hjne
    dsimp only at hjne
    exact (hspec j hj).2 (by omega)


/-- C1: for every successfully generated sample on a corpus whose class
pools are all nonempty: the correct index is in range and equals the
uniform draw `head % num_inputs` (each target position is realised by
exactly one canonical oracle value, i.e. the draw is uniform); the
candidate at the correct index comes from the pool of class
`(query_class + 1) % 10`; every other candidate comes from the pool of
some class different from the successor class; and the distractor class
list drawn from per position is exactly the 9 non-successor classes,
without repetition, sampled uniformly by `np.random.choice`. -/
theorem getItem_sample_invariants {α : Type} [CommRing α] [Div α]
    (numInputs : Nat) (corpus : List (Fin 10 × Img α)) (idx : Nat)
    (rng : List Nat) (h1 : idx < corpus.length) (h2 : 0 < numInputs)
    (h3 : ∀ d, buildPool corpus d ≠ []) :
    ∃ s, getItem numInputs corpus idx rng = .ok s ∧
      s.y < numInputs ∧
      s.y = rng.headD 0 % numInputs ∧
      s.x.length = numInputs ∧
      s.x.getD s.y [] ∈ buildPool corpus (succClass (corpus.getD idx (0, [])).1) ∧
      (∀ j, j < numInputs → j ≠ s.y →
        ∃ d, d ≠ succClass (corpus.getD idx (0, [])).1 ∧
          s.x.getD j [] ∈ buildPool corpus d) ∧
      (∀ p, p < numInputs → ∃! v, v < numInputs ∧
        ∃ t, getItem numInputs corpus idx (v :: rng.tail) = .ok t ∧ t.y = p) ∧
      (distractorList (corpus.getD idx (0, [])).1).length = 9 ∧
      (distractorList (corpus.getD idx (0, [])).1).Nodup ∧
      (∀ d, d ∈ distractorList (corpus.getD idx (0, [])).1 ↔
        d ≠ succClass (corpus.getD idx (0, [])).1) := by
  obtain ⟨s, hs, hy, hxlen, _, hcorrect, hothers⟩ :=
    getItem_ok_char numInputs corpus idx rng h1 h2 h3
  refine ⟨s, hs, ?_, hy, hxlen, hcorrect, hothers, ?_,
    (distractorList_facts _).1, (distractorList_facts _).2.1,
    (distractorList_facts _).2.2⟩
  · rw [hy]
    exact Nat.mod_lt _ h2
  · intro p hp
    refine ⟨p, ⟨hp, ?_⟩, ?_⟩
    · obtain ⟨t, ht, hty, _⟩ :=
        getItem_ok_char numInputs corpus idx (p :: rng.tail) h1 h2 h3
      refine ⟨t, ht, ?_⟩
      rw [hty]
      simp [Nat.mod_eq_of_lt hp]
    · rintro v ⟨hv, t, ht, hty⟩
      obtain ⟨t2, ht2, hty2, _⟩ :=
        getItem_ok_char numInputs corpus idx (v :: rng.tail) h1 h2 h3
      rw [ht] at ht2
      have h5 : t2.y = v % numInputs := by simpa using hty2
      have h6 : t.y = t2.y := by rw [Except.ok.inj ht2]
      rw [Nat.mod_eq_of_lt hv] at h5
      omega

/-- Witness for the C1 theorem at a concrete ten-class corpus. -/
theorem getItem_sample_invariants_witness :
    ((0 : Nat) < corpusW.length ∧ (0 : Nat) < 3 ∧
      ∀ d : Fin 10, buildPool corpusW d ≠ []) ∧
    (∃ s, getItem 3 corpusW 0 [1, 0, 0, 1, 0] = .ok s ∧
      s.y < 3 ∧
      s.y = ([1, 0, 0, 1, 0] : List Nat).headD 0 % 3 ∧
      s.x.length = 3 ∧
      s.x.getD s.y [] ∈ buildPool corpusW (succClass (corpusW.getD 0 (0, [])).1) ∧
      (∀ j, j < 3 → j ≠ s.y →
        ∃ d, d ≠ succClass (corpusW.getD 0 (0, [])).1 ∧
          s.x.getD j [] ∈ buildPool corpusW d) ∧
      (∀ p, p < 3 → ∃! v, v < 3 ∧
        ∃ t, getItem 3 corpusW 0 (v :: ([1, 0, 0, 1, 0] : List Nat).tail)
          = .ok t ∧ t.y = p) ∧
      (distractorList (corpusW.getD 0 (0, [])).1).length = 9 ∧
      (distractorList (corpusW.getD 0 (0, [])).1).Nodup ∧
      (∀ d, d ∈ distractorList (corpusW.getD 0 (0, [])).1 ↔
        d ≠ succClass (corpusW.getD 0 (0, [])).1)) :=
  ⟨⟨by decide, by decide, by decide⟩,
    getItem_sample_invariants 3 corpusW 0 [1, 0, 0, 1, 0]
      (by decide) (by decide) (by decide)⟩

end P10
